import Mathlib

/-!
# affirm-name: the US name-data import (`backend/cmd/import/main.go`)

A shallow embedding of the import command and the properties its
specification states about it.

Modelling conventions.

* A Go `string` is a list of characters (`Str`); the files the importer reads
  are text, so bytes that are not valid UTF-8 are left out of the model.
* Go's `int` is the 64-bit signed integer of the platforms the importer runs
  on; values are `Int` and the range is checked where the code checks it
  (`strconv.Atoi`).
* The Go standard-library functions the importer calls (`strings.TrimSpace`,
  `strings.Split`, `strconv.Atoi`, `strconv.Itoa`, `filepath.Base`,
  `regexp.FindStringSubmatch` for the one fixed pattern) are modelled from their
  documented behaviour.
* A file is what `os.Open` and `bufio.Scanner` deliver: a failure to open, or
  the lines the scanner yields together with whether the scanner ended in an
  error.
* The database connection is explicit state behind an interface of the three
  statements the importer issues (`World`).
-/

namespace AffirmName

/-- A Go string. -/
abbrev Str := List Char

deriving instance DecidableEq for Except

/-! ## Standard-library functions -/

/-- Go `unicode.IsSpace`: the Unicode White_Space property. -/
def isSpace (c : Char) : Bool :=
  let n := c.toNat
  (0x09 ≤ n && n ≤ 0x0D) || n == 0x20 || n == 0x85 || n == 0xA0 || n == 0x1680 ||
    (0x2000 ≤ n && n ≤ 0x200A) || n == 0x2028 || n == 0x2029 || n == 0x202F ||
    n == 0x205F || n == 0x3000

/-- Go `strings.TrimSpace`: the string without its leading and trailing white space. -/
def trimSpace (s : Str) : Str :=
  (s.dropWhile isSpace).rdropWhile isSpace

/-- Go `strings.Split(s, sep)` for a one-character separator: the fields between
the separators, in order; a string without separator is its own single field. -/
def split (sep : Char) : Str → List Str
  | [] => [[]]
  | c :: cs =>
    if c = sep then [] :: split sep cs
    else
      match split sep cs with
      | [] => [[c]]
      | f :: fs => (c :: f) :: fs

/-- Go `strings.Join(fields, sep)` for a one-character separator. -/
def join (sep : Char) : List Str → Str
  | [] => []
  | [f] => f
  | f :: g :: fs => f ++ sep :: join sep (g :: fs)

/-- An ASCII decimal digit. -/
def isDigit (c : Char) : Bool :=
  48 ≤ c.toNat && c.toNat ≤ 57

/-- The value of a decimal digit. -/
def digitVal (c : Char) : Nat :=
  c.toNat - 48

/-- The number a string of decimal digits spells, most significant digit first. -/
def digitsValue (ds : Str) : Nat :=
  ds.foldl (fun n c => n * 10 + digitVal c) 0

/-- Largest value of Go's `int` (64 bit). -/
def maxInt : Int := 9223372036854775807

/-- Smallest value of Go's `int` (64 bit). -/
def minInt : Int := -9223372036854775808

/-- Go `strconv.Atoi`: an optional sign `+` or `-`, then one or more decimal
digits, the value within the range of `int`; `none` is the error result
(`ErrSyntax` or `ErrRange`). -/
def atoi (s : Str) : Option Int :=
  let negative := s.head? = some '-'
  let body := if s.head? = some '-' ∨ s.head? = some '+' then s.tail else s
  if body = [] ∨ body.all isDigit = false then none
  else
    let v : Int := if negative then -(digitsValue body : Int) else (digitsValue body : Int)
    if minInt ≤ v ∧ v ≤ maxInt then some v else none

/-- The character of a decimal digit. -/
def digitChar (d : Nat) : Char :=
  Char.ofNat (48 + d)

/-- The decimal digits of a natural number, most significant first, prepended to
`acc`; `fuel` bounds the number of digits. -/
def natDigitsAux : Nat → Nat → Str → Str
  | 0, _, acc => acc
  | fuel + 1, n, acc =>
    if n < 10 then digitChar n :: acc
    else natDigitsAux fuel (n / 10) (digitChar (n % 10) :: acc)

/-- The decimal rendering of a natural number. -/
def natDigits (n : Nat) : Str :=
  natDigitsAux (n + 1) n []

/-- Go `strconv.Itoa`: the decimal rendering of an integer. -/
def itoa (n : Int) : Str :=
  if n < 0 then '-' :: natDigits n.natAbs else natDigits n.toNat

/-- Go `filepath.Base` (Unix): the last element of a path. -/
def filepathBase (path : Str) : Str :=
  if path = [] then ['.']
  else
    let stripped := path.rdropWhile (fun c => c = '/')
    let last := (stripped.reverse.takeWhile (fun c => c ≠ '/')).reverse
    if last = [] then ['/'] else last

/-- The pattern `yob(\d{4})\.txt` matched at the start of `s`: the whole match and
the capture group. -/
def matchYobAtStart : Str → Option (List Str)
  | 'y' :: 'o' :: 'b' :: d1 :: d2 :: d3 :: d4 :: '.' :: 't' :: 'x' :: 't' :: _ =>
    if isDigit d1 && isDigit d2 && isDigit d3 && isDigit d4 then
      some ['y' :: 'o' :: 'b' :: d1 :: d2 :: d3 :: d4 :: '.' :: 't' :: 'x' :: ['t'],
        [d1, d2, d3, d4]]
    else none
  | _ => none

/-- Go `regexp.MustCompile("yob(\\d{4})\\.txt").FindStringSubmatch`: the leftmost
match of the (unanchored) pattern in `s` with its capture group, or the empty
slice when the pattern matches nowhere. -/
def findStringSubmatch : Str → List Str
  | [] => []
  | c :: cs =>
    match matchYobAtStart (c :: cs) with
    | some m => m
    | none => findStringSubmatch cs

/-! ## The importer -/

/-- The record `NameRecord` of `main.go`. -/
structure NameRecord where
  Year : Int
  Name : Str
  Gender : Str
  Count : Int
  CountryID : Int
  DatasetID : Int
  deriving DecidableEq, Repr

/-- The errors of `extractYearFromFilename`. -/
inductive YearError
  /-- The message "filename does not match expected format 'yobYYYY.txt'". -/
  | formatMismatch
  /-- The message "invalid year in filename: ...". -/
  | invalidYear
  deriving DecidableEq, Repr

/-- The function `extractYearFromFilename` of `main.go`. -/
def extractYearFromFilename (filename : Str) : Except YearError Int :=
  let submatches := findStringSubmatch filename
  if submatches.length ≠ 2 then .error .formatMismatch
  else
    match atoi (submatches.getD 1 []) with
    | none => .error .invalidYear
    | some year => .ok year

/-- What opening and scanning a file delivers. -/
inductive FileRead
  /-- The call `os.Open` fails. -/
  | openError
  /-- The lines `bufio.Scanner` yields, and whether `scanner.Err()` is an error
  once it stops. -/
  | scanned (lines : List Str) (scanErr : Bool)
  deriving DecidableEq, Repr

/-- The errors of `parseSSAFile`. -/
inductive ParseError
  /-- The error of `os.Open`. -/
  | openFailed
  /-- The message "invalid format at line %d: expected 3 fields, got %d". -/
  | invalidFormat (lineNum : Nat) (got : Nat)
  /-- The message "invalid gender at line %d: %s (expected F or M)". -/
  | invalidGender (lineNum : Nat) (gender : Str)
  /-- The message "invalid count at line %d: %v", for an error of `strconv.Atoi`. -/
  | invalidCount (lineNum : Nat)
  /-- The message "invalid count at line %d: must be positive". -/
  | notPositive (lineNum : Nat)
  /-- The error of `scanner.Err()`. -/
  | scanFailed
  deriving DecidableEq, Repr

/-- The line number a parse error reports, when it reports one. -/
def ParseError.lineNum? : ParseError → Option Nat
  | .invalidFormat n _ => some n
  | .invalidGender n _ => some n
  | .invalidCount n => some n
  | .notPositive n => some n
  | .openFailed => none
  | .scanFailed => none

/-- The scanning loop of `parseSSAFile`: `lineNum` and `records` are the loop's
two variables, the list is what the scanner has still to yield. -/
def scanLoop (year countryID datasetID : Int) :
    List Str → Nat → List NameRecord → Except ParseError (List NameRecord)
  | [], _, records => .ok records
  | text :: rest, lineNum, records =>
    let lineNum := lineNum + 1
    let line := trimSpace text
    if line = [] then scanLoop year countryID datasetID rest lineNum records
    else
      let parts := split ',' line
      if parts.length ≠ 3 then .error (.invalidFormat lineNum parts.length)
      else
        let name := trimSpace (parts.getD 0 [])
        let gender := trimSpace (parts.getD 1 [])
        let countStr := trimSpace (parts.getD 2 [])
        if gender ≠ ['F'] ∧ gender ≠ ['M'] then .error (.invalidGender lineNum gender)
        else
          match atoi countStr with
          | none => .error (.invalidCount lineNum)
          | some count =>
            if count ≤ 0 then .error (.notPositive lineNum)
            else
              scanLoop year countryID datasetID rest lineNum
                (records ++ [{ Year := year, Name := name, Gender := gender, Count := count,
                               CountryID := countryID, DatasetID := datasetID }])

/-- The function `parseSSAFile` of `main.go`; `file` is what opening and scanning
`path` delivers. -/
def parseSSAFile (file : FileRead) (year countryID datasetID : Int) :
    Except ParseError (List NameRecord) :=
  match file with
  | .openError => .error .openFailed
  | .scanned lines scanErr =>
    match scanLoop year countryID datasetID lines 0 [] with
    | .error e => .error e
    | .ok records => if scanErr then .error .scanFailed else .ok records

/-- The database connection and the file system, as the importer uses them: the
three statements it sends over the `pgx` connection, each answering with an error
(by its message) or a value and leaving a new state, and the reading of a file. -/
structure World (σ : Type) where
  /-- The query `SELECT COUNT(*) FROM name_datasets WHERE country_id = $1 AND
  year_from = $2 AND source_file_name = $3`, with country, year and file name. -/
  countDatasets : σ → Int → Int → Str → Except Str Int × σ
  /-- The statement `INSERT INTO name_datasets (...) VALUES ($1, $2, $3, $3,
  'SSA-TXT', $4, 'parsed', NOW(), NOW()) RETURNING id`, with country, file name,
  year and storage path. -/
  insertDatasetRow : σ → Int → Str → Int → Str → Except Str Int × σ
  /-- The bulk copy `conn.CopyFrom` into the table `names`: an error or the number
  of rows copied. -/
  copyFrom : σ → List NameRecord → Except Str Int × σ
  /-- What opening and scanning the file at a path delivers. -/
  readFile : σ → Str → FileRead

/-- The function `datasetExists` of `main.go`. -/
def datasetExists {σ : Type} (w : World σ) (s : σ) (countryID year : Int) (filename : Str) :
    Except Str Bool × σ :=
  match w.countDatasets s countryID year filename with
  | (.error err, s1) => (.error err, s1)
  | (.ok count, s1) => (.ok (decide (count > 0)), s1)

/-- The function `insertDataset` of `main.go`. -/
def insertDataset {σ : Type} (w : World σ) (s : σ) (countryID year : Int)
    (filename storagePath : Str) : Except Str Int × σ :=
  w.insertDatasetRow s countryID filename year storagePath

/-- The message of the error `batchInsertNames` returns when the copy fails:
`fmt.Errorf("copy failed: %v", err)`. -/
def copyFailedMessage (err : Str) : Str :=
  "copy failed: ".toList ++ err

/-- The message of the error `batchInsertNames` returns when the copy wrote another
number of rows: `fmt.Errorf("expected to copy %d rows, but copied %d", ...)`. -/
def rowCountMessage (expected copied : Int) : Str :=
  "expected to copy ".toList ++ itoa expected ++ " rows, but copied ".toList ++ itoa copied

/-- The function `batchInsertNames` of `main.go`: `none` is the `nil` error, `some`
an error by its message. The progress line it prints for more than 1000 records is
output only and has no part in the result. -/
def batchInsertNames {σ : Type} (w : World σ) (s : σ) (records : List NameRecord) :
    Option Str × σ :=
  if records.length = 0 then (none, s)
  else
    match w.copyFrom s records with
    | (.error err, s1) => (some (copyFailedMessage err), s1)
    | (.ok copyCount, s1) =>
      if (records.length : Int) ≠ copyCount then
        (some (rowCountMessage records.length copyCount), s1)
      else (none, s1)

/-- What the import loop reports for one file: the branch of the loop body the
file leaves through, with what that branch prints. -/
inductive Outcome
  /-- The report "Skipping file %s: %v": no year in the file name. -/
  | skippedFilename (err : YearError)
  /-- The report "Failed to check dataset: %v". -/
  | checkFailed (err : Str)
  /-- The report "Dataset for year %d already exists, skipping". -/
  | skippedExists (year : Int)
  /-- The report "Failed to create dataset: %v". -/
  | createFailed (err : Str)
  /-- The report "Failed to parse file: %v". -/
  | parseFailed (err : ParseError)
  /-- The reports "Parsed %d records" and "Failed to insert records: %v". -/
  | insertFailed (parsed : Nat) (err : Str)
  /-- The reports "Parsed %d records" and "Imported %d records for year %d". -/
  | imported (parsed : Nat) (year : Int)
  deriving DecidableEq, Repr

/-- The three terminal states of a file. -/
inductive FileState
  | Skipped
  | Imported
  | Failed
  deriving DecidableEq, Repr

/-- The terminal state a report stands for: the loop's "skipping" reports are
`Skipped`, its "Failed to ..." reports `Failed`, its "Imported" report `Imported`. -/
def Outcome.state : Outcome → FileState
  | .skippedFilename _ => .Skipped
  | .skippedExists _ => .Skipped
  | .checkFailed _ => .Failed
  | .createFailed _ => .Failed
  | .parseFailed _ => .Failed
  | .insertFailed _ _ => .Failed
  | .imported _ _ => .Imported

/-- The number of records parsed from a file, for the reports that print it. -/
def Outcome.parsed : Outcome → Nat
  | .insertFailed n _ => n
  | .imported n _ => n
  | _ => 0

/-- The variables of the import loop of `main`: the connection's state, the
counter `totalRecords`, and what has been reported so far, file by file. -/
structure LoopState (σ : Type) where
  store : σ
  totalRecords : Int
  report : List (Str × Outcome)

/-- The body of the import loop of `main` for one file path. -/
def importStep {σ : Type} (w : World σ) (countryID : Int) (st : LoopState σ)
    (filePath : Str) : LoopState σ :=
  match extractYearFromFilename (filepathBase filePath) with
  | .error err => { st with report := st.report ++ [(filePath, .skippedFilename err)] }
  | .ok year =>
    match datasetExists w st.store countryID year (filepathBase filePath) with
    | (.error err, s1) =>
      { st with store := s1, report := st.report ++ [(filePath, .checkFailed err)] }
    | (.ok true, s1) =>
      { st with store := s1, report := st.report ++ [(filePath, .skippedExists year)] }
    | (.ok false, s1) =>
      match insertDataset w s1 countryID year (filepathBase filePath) filePath with
      | (.error err, s2) =>
        { st with store := s2, report := st.report ++ [(filePath, .createFailed err)] }
      | (.ok datasetID, s2) =>
        match parseSSAFile (w.readFile s2 filePath) year countryID datasetID with
        | .error err =>
          { st with store := s2, report := st.report ++ [(filePath, .parseFailed err)] }
        | .ok records =>
          match batchInsertNames w s2 records with
          | (some err, s3) =>
            { st with store := s3,
                      report := st.report ++ [(filePath, .insertFailed records.length err)] }
          | (none, s3) =>
            { store := s3,
              totalRecords := st.totalRecords + records.length,
              report := st.report ++ [(filePath, .imported records.length year)] }

/-- The import loop of `main` over the discovered files, from `totalRecords = 0`. -/
def importLoop {σ : Type} (w : World σ) (countryID : Int) (files : List Str) (s : σ) :
    LoopState σ :=
  files.foldl (importStep w countryID) { store := s, totalRecords := 0, report := [] }

/-- A row of the table `name_datasets`, with the columns the importer writes. -/
structure DatasetRow where
  id : Int
  countryID : Int
  sourceFileName : Str
  yearFrom : Int
  yearTo : Int
  storagePath : Str
  deriving DecidableEq, Repr

/-- The store as explicit state: the registered datasets and the persisted name
records. -/
structure Store where
  datasets : List DatasetRow
  names : List NameRecord
  deriving DecidableEq, Repr

/-- A store whose operations do not fail, over the files `fs`: the count query
counts the matching rows, the insert appends a row under a fresh identifier, the
copy appends every record and reports their number. -/
def storeWorld (fs : Str → FileRead) : World Store where
  countDatasets s countryID year filename :=
    (.ok ((s.datasets.filter (fun d =>
        d.countryID = countryID ∧ d.yearFrom = year ∧ d.sourceFileName = filename)).length : Nat),
      s)
  insertDatasetRow s countryID filename year storagePath :=
    (.ok ((s.datasets.length : Nat) + 1),
      { s with datasets := s.datasets ++
          [{ id := (s.datasets.length : Nat) + 1, countryID := countryID,
             sourceFileName := filename, yearFrom := year, yearTo := year,
             storagePath := storagePath }] })
  copyFrom s records := (.ok (records.length : Nat), { s with names := s.names ++ records })
  readFile _ path := fs path

/-! ## The notions of the specification -/

/-- The fields with `g` applied to the last. -/
def mapLast (g : Str → Str) : List Str → List Str
  | [] => []
  | [f] => [g f]
  | f :: f2 :: fs => f :: mapLast g (f2 :: fs)

/-- The comma-separated fields of a line, each without its surrounding white space. -/
def fieldsOf (line : Str) : List Str :=
  (split ',' line).map trimSpace

/-- A blank line: nothing but white space. -/
def isBlank (line : Str) : Bool :=
  line.all isSpace

/-- A valid line of the source format: three comma-separated fields, the second
one of the two gender tokens, the third a base-10 integer (one `strconv.Atoi`
reads into an `int`) that is strictly positive. -/
def validLine (line : Str) : Bool :=
  match fieldsOf line with
  | [_, gender, countStr] =>
    (gender == ['F'] || gender == ['M']) &&
      (match atoi countStr with
       | some count => decide (0 < count)
       | none => false)
  | _ => false

/-- The record a valid line stands for. -/
def recordOf (year countryID datasetID : Int) (line : Str) : NameRecord :=
  { Year := year
    Name := (fieldsOf line).getD 0 []
    Gender := (fieldsOf line).getD 1 []
    Count := (atoi ((fieldsOf line).getD 2 [])).getD 0
    CountryID := countryID
    DatasetID := datasetID }

/-- The error for a line that is not valid, by its first defect in the order of the
checks: the number of fields, the gender, the count. -/
def lineError (lineNum : Nat) (line : Str) : ParseError :=
  match fieldsOf line with
  | [_, gender, countStr] =>
    if gender ≠ ['F'] ∧ gender ≠ ['M'] then .invalidGender lineNum gender
    else if atoi countStr = none then .invalidCount lineNum
    else .notPositive lineNum
  | fields => .invalidFormat lineNum fields.length

/-- The rows a call of `batchInsertNames` wrote: zero for an empty batch, for which
the store is not called, what the bulk copy reports otherwise, and no number when
the copy fails. -/
def rowsWritten {σ : Type} (w : World σ) (s : σ) (records : List NameRecord) : Option Int :=
  if records = [] then some 0
  else
    match (w.copyFrom s records).1 with
    | .ok copied => some copied
    | .error _ => none

/-- The sum of the parsed record counts of the files reported as imported. -/
def importedTotal (report : List (Str × Outcome)) : Int :=
  ((report.filter (fun e => e.2.state = .Imported)).map (fun e => (e.2.parsed : Int))).sum

/-- A dataset for country, year and file name is registered in the store. -/
def registered (s : Store) (countryID year : Int) (filename : Str) : Bool :=
  s.datasets.any (fun d =>
    decide (d.countryID = countryID ∧ d.yearFrom = year ∧ d.sourceFileName = filename))

/-- Every file whose name yields a year has its dataset registered. -/
def allRegistered (s : Store) (countryID : Int) (files : List Str) : Prop :=
  ∀ f ∈ files, ∀ year, extractYearFromFilename (filepathBase f) = .ok year →
    registered s countryID year (filepathBase f) = true

/-- The two reports of a file the loop passes over: its dataset exists already, for
the year its name yields, or its name yields no year. -/
def skippedAgain (e : Str × Outcome) : Prop :=
  (∃ year, extractYearFromFilename (filepathBase e.1) = .ok year ∧ e.2 = .skippedExists year) ∨
    (∃ err, extractYearFromFilename (filepathBase e.1) = .error err ∧
      e.2 = .skippedFilename err)

/-- The attribute constraints of a name record: a non-empty name, one of the two
gender tokens, a strictly positive count. -/
def NameRecord.meetsConstraints (r : NameRecord) : Prop :=
  r.Name ≠ [] ∧ (r.Gender = ['M'] ∨ r.Gender = ['F']) ∧ 0 < r.Count

/-- A record written back as a line: name, gender and the decimal rendering of the
count, joined by commas. -/
def serialize (r : NameRecord) : Str :=
  join ',' [r.Name, r.Gender, itoa r.Count]

/-- A line with the surrounding white space of each field removed. -/
def trimmedLine (line : Str) : Str :=
  join ',' (fieldsOf line)

/-- The file name format `yobYYYY.txt`: the prefix, four digits, the extension and
nothing else. -/
def isYobName : Str → Bool
  | ['y', 'o', 'b', d1, d2, d3, d4, '.', 't', 'x', 't'] =>
    isDigit d1 && isDigit d2 && isDigit d3 && isDigit d4
  | _ => false

/-! ## Example environments -/

/-- The files of the specification's scenario: `yob2023.txt` with two records, and
nothing else to open. -/
def exampleFiles (path : Str) : FileRead :=
  if path = "../names-example/yob2023.txt".toList then
    .scanned ["Mary,F,7065".toList, "John,M,5500".toList] false
  else .openError

/-- The discovered files of the examples: the scenario's file and a file whose name
matches `yob*.txt` without holding a year. -/
def examplePaths : List Str :=
  ["../names-example/yob2023.txt".toList, "../names-example/yobabcd.txt".toList]

/-- A connection whose bulk copy silently drops the last row of every batch. -/
def droppingWorld : World Unit where
  countDatasets s _ _ _ := (.ok 0, s)
  insertDatasetRow s _ _ _ _ := (.ok 1, s)
  copyFrom s records := (.ok ((records.length - 1 : Nat) : Int), s)
  readFile _ path := exampleFiles path

/-- A connection whose bulk copy fails. -/
def failingWorld : World Unit where
  countDatasets s _ _ _ := (.ok 0, s)
  insertDatasetRow s _ _ _ _ := (.ok 1, s)
  copyFrom s _ := (.error "connection lost".toList, s)
  readFile _ path := exampleFiles path

/-! ## Lemmas -/

theorem split_ne_nil (sep : Char) (s : Str) : split sep s ≠ [] := by
  induction s with
  | nil => simp [split]
  | cons c cs ih =>
    unfold split
    split_ifs
    · simp
    · cases h : split sep cs <;> simp

theorem split_cons_sep (sep : Char) (cs : Str) : split sep (sep :: cs) = [] :: split sep cs := by
  simp [split]

theorem split_cons_ne (sep c : Char) (cs : Str) (h : c ≠ sep) :
    split sep (c :: cs) = (c :: (split sep cs).headD []) :: (split sep cs).tail := by
  rw [split, if_neg h]
  cases hs : split sep cs with
  | nil => exact absurd hs (split_ne_nil sep cs)
  | cons f fs => simp

theorem split_length (sep : Char) (s : Str) : (split sep s).length = s.count sep + 1 := by
  induction s with
  | nil => simp [split]
  | cons c cs ih =>
    by_cases h : c = sep
    · subst h; simp [split_cons_sep, ih]
    · have hl : 0 < (split sep cs).length := by rw [ih]; omega
      rw [split_cons_ne sep c cs h, List.count_cons_of_ne (Ne.symm h)]
      simp [ih]

/-- A string without separator is its own single field. -/
theorem split_of_not_mem (sep : Char) (f : Str) (h : sep ∉ f) : split sep f = [f] := by
  induction f with
  | nil => simp [split]
  | cons c cs ih =>
    have hc : c ≠ sep := fun e => h (by simp [e])
    have hcs : sep ∉ cs := fun e => h (by simp [e])
    rw [split_cons_ne sep c cs hc, ih hcs]; simp

/-- Splitting after a first field without separator. -/
theorem split_append_sep (sep : Char) (f r : Str) (h : sep ∉ f) :
    split sep (f ++ sep :: r) = f :: split sep r := by
  induction f with
  | nil => simp [split_cons_sep]
  | cons c cs ih =>
    have hc : c ≠ sep := fun e => h (by simp [e])
    have hcs : sep ∉ cs := fun e => h (by simp [e])
    rw [List.cons_append, split_cons_ne sep c _ hc, ih hcs]; simp

theorem not_mem_of_mem_split (sep : Char) (s : Str) : ∀ f ∈ split sep s, sep ∉ f := by
  induction s with
  | nil => simp [split]
  | cons c cs ih =>
    by_cases hc : c = sep
    · subst hc
      rw [split_cons_sep]
      intro f hf
      rcases List.mem_cons.1 hf with rfl | hf
      · simp
      · exact ih f hf
    · rw [split_cons_ne sep c cs hc]
      intro f hf
      cases hs : split sep cs with
      | nil => exact absurd hs (split_ne_nil sep cs)
      | cons g gs =>
        rw [hs] at hf ih
        simp only [List.headD_cons, List.tail_cons, List.mem_cons] at hf
        rcases hf with rfl | hf
        · intro hmem
          rcases List.mem_cons.1 hmem with e | e
          · exact hc e.symm
          · exact ih g (by simp) e
        · exact ih f (by simp [hf])

theorem join_cons_cons (sep c : Char) (f : Str) (fs : List Str) :
    join sep ((c :: f) :: fs) = c :: join sep (f :: fs) := by
  cases fs <;> simp [join]

theorem join_split (sep : Char) (s : Str) : join sep (split sep s) = s := by
  induction s with
  | nil => simp [split, join]
  | cons c cs ih =>
    by_cases hc : c = sep
    · subst hc
      rw [split_cons_sep]
      cases hs : split c cs with
      | nil => exact absurd hs (split_ne_nil _ cs)
      | cons g gs => rw [hs] at ih; simp [join, ih]
    · rw [split_cons_ne sep c cs hc]
      cases hs : split sep cs with
      | nil => exact absurd hs (split_ne_nil sep cs)
      | cons g gs => rw [hs] at ih; simp [join_cons_cons, ih]

theorem split_join (sep : Char) (fs : List Str) (hne : fs ≠ []) (h : ∀ f ∈ fs, sep ∉ f) :
    split sep (join sep fs) = fs := by
  induction fs with
  | nil => exact absurd rfl hne
  | cons f t ih =>
    cases t with
    | nil => simpa [join] using split_of_not_mem sep f (h f (by simp))
    | cons g t =>
      have := ih (by simp) (fun x hx => h x (by simp [hx]))
      rw [join, split_append_sep sep f _ (h f (by simp)), this]

theorem dropWhile_append_stop (p : Char → Bool) (b : Char) (hb : p b = false) (f r : Str) :
    (f ++ b :: r).dropWhile p = f.dropWhile p ++ b :: r := by
  induction f with
  | nil => simp [List.dropWhile, hb]
  | cons c cs ih =>
    by_cases hc : p c = true
    · simp [List.dropWhile, hc, ih]
    · simp [List.dropWhile, hc]

theorem rdropWhile_append_stop (p : Char → Bool) (b : Char) (hb : p b = false) (f r : Str) :
    (f ++ b :: r).rdropWhile p = f ++ b :: r.rdropWhile p := by
  simp only [List.rdropWhile, List.reverse_append, List.reverse_cons, List.append_assoc,
    List.singleton_append]
  rw [dropWhile_append_stop p b hb]
  simp

theorem dropWhile_rdropWhile_comm (p : Char → Bool) (x : Str) :
    (x.rdropWhile p).dropWhile p = (x.dropWhile p).rdropWhile p := by
  cases h : x.dropWhile p with
  | nil =>
    have hall : ∀ a ∈ x, p a = true := List.dropWhile_eq_nil_iff.1 h
    have : x.rdropWhile p = [] := List.rdropWhile_eq_nil_iff.2 hall
    simp [this]
  | cons b c =>
    have hb : p b = false := by
      have := List.head_dropWhile_not p x (by simp [h])
      simpa [h] using this
    have hx : x = x.takeWhile p ++ b :: c := by
      rw [← h, List.takeWhile_append_dropWhile]
    have htw : (x.takeWhile p).dropWhile p = [] :=
      List.dropWhile_eq_nil_iff.2 (fun a ha => List.mem_takeWhile_imp ha)
    have e1 : x.rdropWhile p = x.takeWhile p ++ b :: c.rdropWhile p := by
      conv_lhs => rw [hx]
      exact rdropWhile_append_stop p b hb _ _
    rw [e1, dropWhile_append_stop p b hb, htw]
    have := rdropWhile_append_stop p b hb [] c
    simpa using this.symm

theorem trimSpace_dropWhile (x : Str) : trimSpace (x.dropWhile isSpace) = trimSpace x := by
  simp [trimSpace, List.dropWhile_idempotent]

theorem trimSpace_rdropWhile (x : Str) : trimSpace (x.rdropWhile isSpace) = trimSpace x := by
  simp [trimSpace, dropWhile_rdropWhile_comm, List.rdropWhile_idempotent]

theorem trimSpace_trimSpace (x : Str) : trimSpace (trimSpace x) = trimSpace x := by
  have h : trimSpace x = (x.dropWhile isSpace).rdropWhile isSpace := rfl
  rw [h, trimSpace_rdropWhile, trimSpace_dropWhile, ← h]

theorem rdropWhile_join (p : Char → Bool) (sep : Char) (hsep : p sep = false) (fs : List Str) :
    (join sep fs).rdropWhile p = join sep (mapLast (List.rdropWhile p) fs) := by
  induction fs with
  | nil => simp [join, mapLast]
  | cons f t ih =>
    cases t with
    | nil => simp [join, mapLast]
    | cons g t =>
      rw [join, rdropWhile_append_stop p sep hsep, ih]
      cases hm : mapLast (List.rdropWhile p) (g :: t) with
      | nil => cases t <;> simp [mapLast] at hm
      | cons a b => simp [mapLast, hm, join]

theorem dropWhile_join (p : Char → Bool) (sep : Char) (hsep : p sep = false) (f : Str)
    (fs : List Str) :
    (join sep (f :: fs)).dropWhile p = join sep (f.dropWhile p :: fs) := by
  cases fs with
  | nil => simp [join]
  | cons g t => simp [join, dropWhile_append_stop p sep hsep]

theorem mapLast_ne_nil (g : Str → Str) (fs : List Str) (h : fs ≠ []) : mapLast g fs ≠ [] := by
  match fs, h with
  | [_], _ => simp [mapLast]
  | _ :: _ :: _, _ => simp [mapLast]

theorem mem_mapLast (g : Str → Str) (fs : List Str) (x : Str) (hx : x ∈ mapLast g fs) :
    x ∈ fs ∨ ∃ y ∈ fs, x = g y := by
  induction fs with
  | nil => simp [mapLast] at hx
  | cons f t ih =>
    cases t with
    | nil => simp [mapLast] at hx; right; exact ⟨f, by simp, hx⟩
    | cons f2 t =>
      simp only [mapLast, List.mem_cons] at hx
      rcases hx with rfl | hx
      · left; simp
      · rcases ih (by simpa [List.mem_cons] using hx) with h | ⟨y, hy, rfl⟩
        · left; exact List.mem_cons_of_mem _ h
        · right; exact ⟨y, List.mem_cons_of_mem _ hy, rfl⟩

theorem map_trimSpace_mapLast (fs : List Str) :
    (mapLast (List.rdropWhile isSpace) fs).map trimSpace = fs.map trimSpace := by
  induction fs with
  | nil => simp [mapLast]
  | cons f t ih =>
    cases t with
    | nil => simp [mapLast, trimSpace_rdropWhile]
    | cons f2 t => simpa [mapLast] using ih

theorem isSpace_comma : isSpace ',' = false := by decide

/-- Trimming a line and then splitting it gives the fields of the line, the first
without its leading and the last without its trailing white space. -/
theorem split_trimSpace (line : Str) :
    split ',' (trimSpace line) =
      mapLast (List.rdropWhile isSpace)
        (((split ',' line).headD []).dropWhile isSpace :: (split ',' line).tail) := by
  have hj := join_split ',' line
  have hn := not_mem_of_mem_split ',' line
  cases hs : split ',' line with
  | nil => exact absurd hs (split_ne_nil _ _)
  | cons f t =>
    rw [hs] at hj hn
    have e : trimSpace line =
        join ',' (mapLast (List.rdropWhile isSpace) (f.dropWhile isSpace :: t)) := by
      conv_lhs => rw [← hj]
      rw [trimSpace, dropWhile_join isSpace ',' isSpace_comma,
        rdropWhile_join isSpace ',' isSpace_comma]
    rw [e]
    apply split_join
    · exact mapLast_ne_nil _ _ (by simp)
    · intro x hx
      have hsub : ∀ y ∈ f.dropWhile isSpace :: t, ',' ∉ y := by
        intro y hy
        rcases List.mem_cons.1 hy with rfl | hy
        · intro hm
          exact hn f (by simp) ((List.dropWhile_sublist _).subset hm)
        · exact hn y (List.mem_cons_of_mem _ hy)
      rcases mem_mapLast _ _ x hx with h | ⟨y, hy, rfl⟩
      · exact hsub x h
      · intro hm
        exact hsub y hy (( List.rdropWhile_prefix _ _).subset hm)

/-- Trimming the fields of the trimmed line gives the trimmed fields of the line. -/
theorem map_trimSpace_split_trimSpace (line : Str) :
    (split ',' (trimSpace line)).map trimSpace = (split ',' line).map trimSpace := by
  rw [split_trimSpace, map_trimSpace_mapLast]
  cases hs : split ',' line with
  | nil => exact absurd hs (split_ne_nil _ _)
  | cons f t => simp [trimSpace_dropWhile]

theorem trimSpace_eq_nil_iff (line : Str) : trimSpace line = [] ↔ isBlank line = true := by
  unfold trimSpace isBlank
  rw [List.rdropWhile_eq_nil_iff, List.all_eq_true]
  constructor
  · intro h
    have hnil : line.dropWhile isSpace = [] := by
      by_contra hne
      have h1 := List.head_dropWhile_not isSpace line hne
      have h2 := h _ (List.head_mem hne)
      simp [h2] at h1
    exact List.dropWhile_eq_nil_iff.1 hnil
  · intro h x hx
    exact h x ((List.dropWhile_sublist _).subset hx)

theorem fieldsOf_trimSpace (line : Str) :
    (split ',' (trimSpace line)).map trimSpace = fieldsOf line :=
  map_trimSpace_split_trimSpace line

theorem fieldsOf_length (line : Str) :
    (split ',' (trimSpace line)).length = (fieldsOf line).length := by
  rw [← fieldsOf_trimSpace, List.length_map]

/-- One turn of the scanning loop, by the kind of line it meets. -/
theorem scanLoop_cons (year countryID datasetID : Int) (text : Str) (rest : List Str) (n : Nat)
    (records : List NameRecord) :
    scanLoop year countryID datasetID (text :: rest) n records =
      if isBlank text = true then scanLoop year countryID datasetID rest (n + 1) records
      else if validLine text = true then
        scanLoop year countryID datasetID rest (n + 1)
          (records ++ [recordOf year countryID datasetID text])
      else .error (lineError (n + 1) text) := by
  rw [scanLoop]
  by_cases hb : isBlank text = true
  · simp [hb, (trimSpace_eq_nil_iff text).2 hb]
  · have hne : trimSpace text ≠ [] := fun h => hb ((trimSpace_eq_nil_iff text).1 h)
    simp only [hne, hb, if_false]
    have hlen := fieldsOf_length text
    have hmap := fieldsOf_trimSpace text
    generalize split ',' (trimSpace text) = parts at hlen hmap
    match parts, hlen, hmap with
    | [], hlen, hmap =>
      have : fieldsOf text = [] := by simpa using hmap.symm
      simp [validLine, lineError, this]
    | [a], hlen, hmap =>
      have : fieldsOf text = [trimSpace a] := by simpa using hmap.symm
      simp [validLine, lineError, this]
    | [a, b], hlen, hmap =>
      have : fieldsOf text = [trimSpace a, trimSpace b] := by simpa using hmap.symm
      simp [validLine, lineError, this]
    | [a, b, c], hlen, hmap =>
      have hf : fieldsOf text = [trimSpace a, trimSpace b, trimSpace c] := by
        simpa using hmap.symm
      simp only [List.length_cons, List.length_nil, ne_eq, not_true_eq_false, if_false,
        List.getD_cons_zero, List.getD_cons_succ, validLine, lineError, recordOf, hf]
      by_cases hg : trimSpace b ≠ ['F'] ∧ trimSpace b ≠ ['M']
      · have hg2 : (trimSpace b == ['F'] || trimSpace b == ['M']) = false := by
          simp [hg.1, hg.2]
        simp [hg, hg2]
      · have hg2 : (trimSpace b == ['F'] || trimSpace b == ['M']) = true := by
          simp only [not_and_or, not_not] at hg
          rcases hg with h | h <;> simp [h]
        simp only [hg, hg2, if_false, Bool.true_and]
        cases hat : atoi (trimSpace c) with
        | none => simp
        | some count =>
          by_cases hc : count ≤ 0
          · simp [hc, not_lt.2 hc]
          · simp [hc, not_le.1 hc]
    | a :: b :: c :: d :: t, hlen, hmap =>
      have hf : fieldsOf text =
          trimSpace a :: trimSpace b :: trimSpace c :: trimSpace d :: t.map trimSpace := by
        simpa using hmap.symm
      simp [validLine, lineError, hf]

/-- The scanning loop over lines that are all blank or valid. -/
theorem scanLoop_valid (year countryID datasetID : Int) (lines : List Str)
    (h : ∀ l ∈ lines, isBlank l = false → validLine l = true) (n : Nat)
    (records : List NameRecord) :
    scanLoop year countryID datasetID lines n records =
      .ok (records ++
        (lines.filter (fun l => !isBlank l)).map (recordOf year countryID datasetID)) := by
  induction lines generalizing n records with
  | nil => simp [scanLoop]
  | cons text rest ih =>
    have hrest : ∀ l ∈ rest, isBlank l = false → validLine l = true :=
      fun l hl => h l (List.mem_cons_of_mem _ hl)
    rw [scanLoop_cons]
    by_cases hb : isBlank text = true
    · simp [hb, ih hrest]
    · have hv := h text (List.mem_cons_self _ _) (by simpa using hb)
      simp [hb, hv, ih hrest]

/-- The scanning loop stops with the error of the first line that is neither blank
nor valid. -/
theorem scanLoop_first_invalid (year countryID datasetID : Int) (pre : List Str) (bad : Str)
    (post : List Str) (hpre : ∀ l ∈ pre, isBlank l = false → validLine l = true)
    (hb : isBlank bad = false) (hv : validLine bad = false) (n : Nat)
    (records : List NameRecord) :
    scanLoop year countryID datasetID (pre ++ bad :: post) n records =
      .error (lineError (n + pre.length + 1) bad) := by
  induction pre generalizing n records with
  | nil => simp [scanLoop_cons, hb, hv]
  | cons text rest ih =>
    have hrest : ∀ l ∈ rest, isBlank l = false → validLine l = true :=
      fun l hl => hpre l (List.mem_cons_of_mem _ hl)
    rw [List.cons_append, scanLoop_cons]
    have e : n + 1 + rest.length + 1 = n + (text :: rest).length + 1 := by
      simp only [List.length_cons]; omega
    by_cases htb : isBlank text = true
    · rw [if_pos htb, ih hrest, e]
    · have htv := hpre text (List.mem_cons_self _ _) (by simpa using htb)
      rw [if_neg htb, if_pos htv, ih hrest, e]

/-- A list with a line that is neither blank nor valid splits at the first such line. -/
theorem exists_first_invalid (lines : List Str)
    (h : ∃ l ∈ lines, isBlank l = false ∧ validLine l = false) :
    ∃ pre bad post, lines = pre ++ bad :: post ∧
      (∀ l ∈ pre, isBlank l = false → validLine l = true) ∧
      isBlank bad = false ∧ validLine bad = false := by
  induction lines with
  | nil => obtain ⟨l, hl, _⟩ := h; simp at hl
  | cons text rest ih =>
    by_cases ht : isBlank text = false ∧ validLine text = false
    · exact ⟨[], text, rest, rfl, by simp, ht.1, ht.2⟩
    · have hrest : ∃ l ∈ rest, isBlank l = false ∧ validLine l = false := by
        obtain ⟨l, hl, hl2⟩ := h
        rcases List.mem_cons.1 hl with rfl | hl
        · exact absurd hl2 ht
        · exact ⟨l, hl, hl2⟩
      obtain ⟨pre, bad, post, e, hpre, hb, hv⟩ := ih hrest
      refine ⟨text :: pre, bad, post, by simp [e], ?_, hb, hv⟩
      intro l hl hbl
      rcases List.mem_cons.1 hl with rfl | hl
      · by_contra hc
        exact ht ⟨hbl, by simpa using hc⟩
      · exact hpre l hl hbl

theorem lineError_lineNum (n : Nat) (line : Str) : (lineError n line).lineNum? = some n := by
  unfold lineError
  split
  · split_ifs <;> rfl
  · rfl

/-- A line with a comma is not blank. -/
theorem isBlank_of_fields (line : Str) (h : (split ',' line).length ≠ 1) :
    isBlank line = false := by
  by_contra hb
  have hb : isBlank line = true := by simpa using hb
  have hall : ∀ c ∈ line, isSpace c = true := by simpa [isBlank] using hb
  have : ',' ∉ line := fun hm => by
    have := hall _ hm
    simp [isSpace_comma] at this
  rw [split_of_not_mem ',' line this] at h
  simp at h

theorem natDigitsAux_eq (n : Nat) : ∀ (fuel : Nat) (acc : Str), n < fuel →
    natDigitsAux fuel n acc = natDigits n ++ acc := by
  induction n using Nat.strong_induction_on with
  | _ n ih =>
    intro fuel acc hf
    obtain ⟨f, rfl⟩ : ∃ f, fuel = f + 1 := ⟨fuel - 1, by omega⟩
    by_cases h10 : n < 10
    · simp [natDigits, natDigitsAux, h10]
    · have hdiv : n / 10 < n := Nat.div_lt_self (by omega) (by omega)
      have e : natDigits n = natDigits (n / 10) ++ [digitChar (n % 10)] := by
        show natDigitsAux (n + 1) n [] = _
        rw [natDigitsAux, if_neg h10, ih (n / 10) hdiv n _ hdiv]
      rw [natDigitsAux, if_neg h10, ih (n / 10) hdiv f _ (by omega), e]
      simp

theorem natDigits_lt_ten (n : Nat) (h : n < 10) : natDigits n = [digitChar n] := by
  simp [natDigits, natDigitsAux, h]

theorem natDigits_ge_ten (n : Nat) (h : 10 ≤ n) :
    natDigits n = natDigits (n / 10) ++ [digitChar (n % 10)] := by
  have hdiv : n / 10 < n := Nat.div_lt_self (by omega) (by omega)
  rw [natDigits, natDigitsAux, if_neg (by omega), natDigitsAux_eq (n / 10) n _ hdiv]

theorem digitChar_digitVal (c : Char) (h : isDigit c = true) : digitChar (digitVal c) = c := by
  simp only [isDigit, Bool.and_eq_true, decide_eq_true_eq] at h
  unfold digitChar digitVal
  rw [show 48 + (c.toNat - 48) = c.toNat by omega]
  exact Char.ofNat_toNat c

theorem digitVal_lt (c : Char) (h : isDigit c = true) : digitVal c < 10 := by
  simp only [isDigit, Bool.and_eq_true, decide_eq_true_eq] at h
  unfold digitVal; omega

theorem digitsValue_append (ds : Str) (c : Char) :
    digitsValue (ds ++ [c]) = digitsValue ds * 10 + digitVal c := by
  simp [digitsValue, List.foldl_append]

theorem digitChar_ne (d : Nat) (h1 : 1 ≤ d) (h9 : d ≤ 9) :
    digitChar d ≠ '0' ∧ digitChar d ≠ '+' ∧ digitChar d ≠ '-' := by
  interval_cases d <;> decide

/-- The rendering of a positive number starts with a digit from 1 to 9. -/
theorem natDigits_head (n : Nat) (h : 0 < n) :
    ∃ d rest, natDigits n = digitChar d :: rest ∧ 1 ≤ d ∧ d ≤ 9 := by
  induction n using Nat.strong_induction_on with
  | _ n ih =>
    by_cases h10 : n < 10
    · exact ⟨n, [], natDigits_lt_ten n h10, h, by omega⟩
    · have hdiv : n / 10 < n := Nat.div_lt_self (by omega) (by omega)
      obtain ⟨d, rest, e, h1, h9⟩ := ih (n / 10) hdiv (Nat.div_pos (by omega) (by omega))
      exact ⟨d, rest ++ [digitChar (n % 10)], by rw [natDigits_ge_ten n (by omega), e]; simp,
        h1, h9⟩

theorem digitsValue_pos (c : Char) (ds : Str) (hc : 0 < digitVal c) :
    0 < digitsValue (c :: ds) := by
  induction ds using List.reverseRecOn with
  | nil => simpa [digitsValue] using hc
  | append_singleton ds x ih =>
    rw [← List.cons_append, digitsValue_append]; omega

/-- Rendering the value of a string of digits that does not start with a zero gives
the string back. -/
theorem natDigits_digitsValue (ds : Str) (hne : ds ≠ [])
    (hd : ∀ c ∈ ds, isDigit c = true) (h0 : ds.head? ≠ some '0') :
    natDigits (digitsValue ds) = ds := by
  induction ds using List.reverseRecOn with
  | nil => exact absurd rfl hne
  | append_singleton init last ih =>
    have hlast : isDigit last = true := hd last (by simp)
    rw [digitsValue_append]
    cases init with
    | nil =>
      simp only [digitsValue, List.foldl_nil, Nat.zero_mul, Nat.zero_add, List.nil_append]
      rw [natDigits_lt_ten _ (digitVal_lt last hlast), digitChar_digitVal last hlast]
    | cons c cs =>
      have hc : isDigit c = true := hd c (by simp)
      have hc0 : c ≠ '0' := by simpa using h0
      have hcpos : 0 < digitVal c := by
        simp only [isDigit, Bool.and_eq_true, decide_eq_true_eq] at hc
        have : c.toNat ≠ 48 := fun e => hc0 (by
          have := congrArg Char.ofNat e
          rw [Char.ofNat_toNat] at this
          exact this)
        unfold digitVal; omega
      have hpos := digitsValue_pos c cs hcpos
      have hih := ih (by simp)
        (fun x hx => hd x (List.mem_append_left _ hx)) (by simpa using hc0)
      have hlt := digitVal_lt last hlast
      rw [natDigits_ge_ten _ (by omega)]
      have e1 : (digitsValue (c :: cs) * 10 + digitVal last) / 10 = digitsValue (c :: cs) := by
        omega
      have e2 : (digitsValue (c :: cs) * 10 + digitVal last) % 10 = digitVal last := by omega
      rw [e1, e2, hih, digitChar_digitVal last hlast]

/-- What `strconv.Atoi` accepts with a positive value: digits, after an optional
plus sign. -/
theorem atoi_pos (s : Str) (n : Int) (h : atoi s = some n) (hn : 0 < n) :
    ∃ body : Str, (s = body ∨ s = '+' :: body) ∧ body ≠ [] ∧
      (∀ c ∈ body, isDigit c = true) ∧ n = (digitsValue body : Int) := by
  cases s with
  | nil => simp [atoi] at h
  | cons c cs =>
    by_cases hm : c = '-'
    · subst hm
      simp only [atoi, List.head?_cons, true_or, if_true, List.tail_cons] at h
      split_ifs at h
      simp only [Option.some.injEq] at h
      have : (0 : Int) ≤ digitsValue cs := Int.natCast_nonneg _
      omega
    · by_cases hp : c = '+'
      · subst hp
        have hneg : ¬ (some '+' = some '-') := by decide
        simp only [atoi, List.head?_cons, hneg, false_or, if_true, if_false,
          List.tail_cons] at h
        split_ifs at h with hbody hrange
        simp only [Option.some.injEq] at h
        have hb := not_or.1 hbody
        refine ⟨cs, Or.inr rfl, hb.1, ?_, h.symm⟩
        intro c hc
        have hall : cs.all isDigit = true := by simpa using hb.2
        exact List.all_eq_true.1 hall c hc
      · have h1 : ¬ (some c = some '-') := by simpa using hm
        have h2 : ¬ (some c = some '+') := by simpa using hp
        simp only [atoi, List.head?_cons, h1, h2, false_or, if_false] at h
        by_cases hbody : c :: cs = [] ∨ (c :: cs).all isDigit = false
        · rw [if_pos hbody] at h; exact absurd h (by simp)
        rw [if_neg hbody] at h
        split_ifs at h with hrange
        simp only [Option.some.injEq] at h
        have hb := not_or.1 hbody
        refine ⟨c :: cs, Or.inl rfl, hb.1, ?_, h.symm⟩
        intro x hx
        have hall : (c :: cs).all isDigit = true := by simpa using hb.2
        exact List.all_eq_true.1 hall x hx

theorem isDigit_plus : isDigit '+' = false := by decide

/-- Rendering the value `strconv.Atoi` read gives the string back exactly when the
string has neither a plus sign nor a leading zero. -/
theorem itoa_atoi_iff (s : Str) (n : Int) (h : atoi s = some n) (hn : 0 < n) :
    itoa n = s ↔ s.head? ≠ some '+' ∧ s.head? ≠ some '0' := by
  obtain ⟨body, hs, hne, hd, hval⟩ := atoi_pos s n h hn
  have hitoa : itoa n = natDigits (digitsValue body) := by
    unfold itoa
    rw [if_neg (by omega), hval, Int.toNat_natCast]
  have hvpos : 0 < digitsValue body := by omega
  constructor
  · intro e
    obtain ⟨d, rest, e2, h1, h9⟩ := natDigits_head _ hvpos
    have hne := digitChar_ne d h1 h9
    rw [← e, hitoa, e2]
    simp [hne.1, hne.2.1]
  · rintro ⟨hp, hz⟩
    rcases hs with rfl | rfl
    · rw [hitoa]; exact natDigits_digitsValue s hne hd hz
    · simp at hp

theorem rowCountMessage_ne (expected copied : Int) (err : Str) :
    rowCountMessage expected copied ≠ copyFailedMessage err := by
  have h1 : "expected to copy ".toList = 'e' :: "xpected to copy ".toList := by decide
  have h2 : "copy failed: ".toList = 'c' :: "opy failed: ".toList := by decide
  unfold rowCountMessage copyFailedMessage
  rw [h1, h2]
  intro h
  simp only [List.cons_append, List.cons.injEq] at h
  exact absurd h.1 (by decide)

theorem batchInsertNames_nil {σ : Type} (w : World σ) (s : σ) :
    batchInsertNames w s [] = (none, s) := by
  simp [batchInsertNames]

theorem batchInsertNames_copy_error {σ : Type} (w : World σ) (s s1 : σ)
    (records : List NameRecord) (hne : records ≠ []) (err : Str)
    (h : w.copyFrom s records = (.error err, s1)) :
    batchInsertNames w s records = (some (copyFailedMessage err), s1) := by
  have hl : records.length ≠ 0 := by simpa using hne
  simp [batchInsertNames, hl, h]

theorem batchInsertNames_copy_ok {σ : Type} (w : World σ) (s s1 : σ)
    (records : List NameRecord) (hne : records ≠ []) (copied : Int)
    (h : w.copyFrom s records = (.ok copied, s1)) :
    batchInsertNames w s records =
      (if (records.length : Int) ≠ copied then
        some (rowCountMessage records.length copied) else none, s1) := by
  have hl : records.length ≠ 0 := by simpa using hne
  simp only [batchInsertNames, hl, h, if_false]
  split_ifs <;> rfl

theorem importedTotal_append (r1 r2 : List (Str × Outcome)) :
    importedTotal (r1 ++ r2) = importedTotal r1 + importedTotal r2 := by
  simp [importedTotal]

/-- One turn of the import loop reports the file once and adds to the total only
the parsed records of an imported file. -/
theorem importStep_report {σ : Type} (w : World σ) (countryID : Int) (st : LoopState σ)
    (filePath : Str) :
    ∃ o : Outcome,
      (importStep w countryID st filePath).report = st.report ++ [(filePath, o)] ∧
      (importStep w countryID st filePath).totalRecords =
        st.totalRecords + importedTotal [(filePath, o)] := by
  unfold importStep
  split
  · exact ⟨_, rfl, by simp [importedTotal, Outcome.state]⟩
  · split
    · exact ⟨_, rfl, by simp [importedTotal, Outcome.state]⟩
    · exact ⟨_, rfl, by simp [importedTotal, Outcome.state]⟩
    · split
      · exact ⟨_, rfl, by simp [importedTotal, Outcome.state]⟩
      · split
        · exact ⟨_, rfl, by simp [importedTotal, Outcome.state]⟩
        · split
          · exact ⟨_, rfl, by simp [importedTotal, Outcome.state]⟩
          · exact ⟨_, rfl, by simp [importedTotal, Outcome.state, Outcome.parsed]⟩

/-- An imported file was registered, parsed and inserted without error, and the
count reported for it is the number of records parsed from it. -/
theorem importStep_imported {σ : Type} (w : World σ) (countryID : Int) (st : LoopState σ)
    (filePath : Str) (n : Nat) (year : Int)
    (h : (importStep w countryID st filePath).report =
      st.report ++ [(filePath, .imported n year)]) :
    extractYearFromFilename (filepathBase filePath) = .ok year ∧
    ∃ (s1 s2 s3 : σ) (datasetID : Int) (records : List NameRecord),
      datasetExists w st.store countryID year (filepathBase filePath) = (.ok false, s1) ∧
      insertDataset w s1 countryID year (filepathBase filePath) filePath =
        (.ok datasetID, s2) ∧
      parseSSAFile (w.readFile s2 filePath) year countryID datasetID = .ok records ∧
      batchInsertNames w s2 records = (none, s3) ∧
      records.length = n ∧
      (importStep w countryID st filePath).store = s3 := by
  unfold importStep at h
  split at h
  · simp at h
  · rename_i y hy
    split at h
    · simp at h
    · simp at h
    · rename_i s1 hex
      split at h
      · simp at h
      · rename_i datasetID s2 hins
        split at h
        · simp at h
        · rename_i records hparse
          split at h
          · simp at h
          · rename_i s3 hbatch
            simp only [List.append_cancel_left_eq, List.cons.injEq, Prod.mk.injEq, true_and,
              Outcome.imported.injEq, and_true] at h
            obtain ⟨hn, hyear⟩ := h
            subst hyear
            refine ⟨hy, s1, s2, s3, datasetID, records, hex, hins, hparse, hbatch, hn, ?_⟩
            simp only [importStep, hy, hex, hins, hparse, hbatch]

theorem importLoop_foldl {σ : Type} (w : World σ) (countryID : Int) (files : List Str)
    (st : LoopState σ) :
    let r := files.foldl (importStep w countryID) st
    ∃ entries : List (Str × Outcome),
      r.report = st.report ++ entries ∧ entries.map Prod.fst = files ∧
      r.totalRecords = st.totalRecords + importedTotal entries := by
  induction files generalizing st with
  | nil => exact ⟨[], by simp, rfl, by simp [importedTotal]⟩
  | cons f rest ih =>
    obtain ⟨o, ho, ht⟩ := importStep_report w countryID st f
    obtain ⟨entries, he, hm, hs⟩ := ih (importStep w countryID st f)
    refine ⟨(f, o) :: entries, ?_, ?_, ?_⟩
    · simp only [List.foldl_cons]; rw [he, ho]; simp
    · simp [hm]
    · simp only [List.foldl_cons]; rw [hs, ht]
      rw [show (f, o) :: entries = [(f, o)] ++ entries from rfl, importedTotal_append]
      ring

theorem registered_iff (s : Store) (countryID year : Int) (filename : Str) :
    registered s countryID year filename = true ↔
      ∃ d ∈ s.datasets,
        d.countryID = countryID ∧ d.yearFrom = year ∧ d.sourceFileName = filename := by
  simp [registered]

theorem datasetExists_storeWorld (fs : Str → FileRead) (s : Store) (countryID year : Int)
    (filename : Str) :
    datasetExists (storeWorld fs) s countryID year filename =
      (.ok (registered s countryID year filename), s) := by
  simp only [datasetExists, storeWorld, gt_iff_lt, Nat.cast_pos, List.length_pos,
    Prod.mk.injEq, and_true, Except.ok.injEq]
  rw [Bool.eq_iff_iff, decide_eq_true_iff, registered_iff, ne_eq, List.filter_eq_nil_iff]
  simp

/-- One turn of the import loop over the store keeps the registered datasets and
registers the file's own. -/
theorem importStep_storeWorld_datasets (fs : Str → FileRead) (countryID : Int)
    (st : LoopState Store) (f : Str) :
    (∀ c y n, registered st.store c y n = true →
      registered (importStep (storeWorld fs) countryID st f).store c y n = true) ∧
    (∀ year, extractYearFromFilename (filepathBase f) = .ok year →
      registered (importStep (storeWorld fs) countryID st f).store countryID year
        (filepathBase f) = true) := by
  unfold importStep
  split
  · rename_i err hy
    exact ⟨fun _ _ _ h => h, fun year h => by rw [hy] at h; cases h⟩
  · rename_i y hy
    rw [datasetExists_storeWorld]
    by_cases hreg : registered st.store countryID y (filepathBase f) = true
    · simp only [hreg]
      refine ⟨fun _ _ _ h => h, fun year h => ?_⟩
      rw [hy] at h; cases h; exact hreg
    · have hreg : registered st.store countryID y (filepathBase f) = false := by
        simpa using hreg
      simp only [hreg]
      have hmono : ∀ (names : List NameRecord) c y' n, registered st.store c y' n = true →
          registered ⟨st.store.datasets ++
            [{ id := (st.store.datasets.length : Nat) + 1, countryID := countryID,
               sourceFileName := filepathBase f, yearFrom := y, yearTo := y,
               storagePath := f }], names⟩ c y' n = true := by
        intro names c y' n h
        rw [registered_iff] at h ⊢
        obtain ⟨d, hd, h⟩ := h
        exact ⟨d, List.mem_append_left _ hd, h⟩
      have hnew : ∀ (names : List NameRecord),
          registered ⟨st.store.datasets ++
            [{ id := (st.store.datasets.length : Nat) + 1, countryID := countryID,
               sourceFileName := filepathBase f, yearFrom := y, yearTo := y,
               storagePath := f }], names⟩ countryID y (filepathBase f) = true := by
        intro names
        rw [registered_iff]
        exact ⟨_, List.mem_append_right _ (List.mem_singleton_self _), rfl, rfl, rfl⟩
      simp only [insertDataset, storeWorld]
      split
      · rename_i err hp
        refine ⟨fun c y' n h => hmono _ c y' n h, fun year h => ?_⟩
        rw [hy] at h; cases h; exact hnew _
      · rename_i records hp
        simp only [batchInsertNames]
        split_ifs with h0 h1
        · refine ⟨fun c y' n h => hmono _ c y' n h, fun year h => ?_⟩
          rw [hy] at h; cases h; exact hnew _
        · refine ⟨fun c y' n h => hmono _ c y' n h, fun year h => ?_⟩
          rw [hy] at h; cases h; exact hnew _
        · refine ⟨fun c y' n h => hmono _ c y' n h, fun year h => ?_⟩
          rw [hy] at h; cases h; exact hnew _

/-- The import loop over the store keeps the registered datasets and registers the
dataset of every file it meets. -/
theorem foldl_importStep_registered (fs : Str → FileRead) (countryID : Int)
    (files : List Str) (st : LoopState Store) :
    (∀ c y n, registered st.store c y n = true →
      registered (files.foldl (importStep (storeWorld fs) countryID) st).store c y n = true) ∧
    allRegistered (files.foldl (importStep (storeWorld fs) countryID) st).store countryID
      files := by
  induction files generalizing st with
  | nil => exact ⟨fun _ _ _ h => h, fun f hf => by simp at hf⟩
  | cons f rest ih =>
    obtain ⟨hmono, hnew⟩ := importStep_storeWorld_datasets fs countryID st f
    obtain ⟨hmono2, hall⟩ := ih (importStep (storeWorld fs) countryID st f)
    simp only [List.foldl_cons]
    refine ⟨fun c y n h => hmono2 c y n (hmono c y n h), ?_⟩
    intro g hg year hy
    rcases List.mem_cons.1 hg with rfl | hg
    · exact hmono2 _ _ _ (hnew year hy)
    · exact hall g hg year hy

/-- One turn of the import loop for a file that is registered or has no year in its
name: the store and the total stay, the file is reported as skipped. -/
theorem importStep_skip (fs : Str → FileRead) (countryID : Int) (st : LoopState Store)
    (f : Str)
    (h : ∀ year, extractYearFromFilename (filepathBase f) = .ok year →
      registered st.store countryID year (filepathBase f) = true) :
    ∃ o : Outcome, skippedAgain (f, o) ∧
      importStep (storeWorld fs) countryID st f =
        { store := st.store, totalRecords := st.totalRecords,
          report := st.report ++ [(f, o)] } := by
  unfold importStep
  split
  · rename_i err hy
    exact ⟨.skippedFilename err, Or.inr ⟨err, hy, rfl⟩, rfl⟩
  · rename_i y hy
    rw [datasetExists_storeWorld, h y hy]
    exact ⟨.skippedExists y, Or.inl ⟨y, hy, rfl⟩, rfl⟩

/-- The import loop over files that are all registered or without a year. -/
theorem foldl_importStep_skip (fs : Str → FileRead) (countryID : Int) (files : List Str)
    (st : LoopState Store) (h : allRegistered st.store countryID files) :
    ∃ entries : List (Str × Outcome),
      entries.map Prod.fst = files ∧ (∀ e ∈ entries, skippedAgain e) ∧
      files.foldl (importStep (storeWorld fs) countryID) st =
        { store := st.store, totalRecords := st.totalRecords,
          report := st.report ++ entries } := by
  induction files generalizing st with
  | nil => exact ⟨[], rfl, by simp, by simp⟩
  | cons f rest ih =>
    obtain ⟨o, ho, hstep⟩ := importStep_skip fs countryID st f (h f (List.mem_cons_self _ _))
    have hrest : allRegistered (importStep (storeWorld fs) countryID st f).store countryID
        rest := by
      rw [hstep]
      exact fun g hg => h g (List.mem_cons_of_mem _ hg)
    obtain ⟨entries, hm, hs, hfold⟩ := ih (importStep (storeWorld fs) countryID st f) hrest
    refine ⟨(f, o) :: entries, by simp [hm], ?_, ?_⟩
    · intro e he
      rcases List.mem_cons.1 he with rfl | he
      · exact ho
      · exact hs e he
    · simp only [List.foldl_cons]
      rw [hfold, hstep]
      simp

theorem skippedAgain_state (e : Str × Outcome) (h : skippedAgain e) :
    e.2.state = .Skipped := by
  rcases h with ⟨y, _, h⟩ | ⟨err, _, h⟩ <;> rw [h] <;> rfl

theorem atoi_range (s : Str) (n : Int) (h : atoi s = some n) : minInt ≤ n ∧ n ≤ maxInt := by
  unfold atoi at h
  simp only at h
  split_ifs at h <;> (simp only [Option.some.injEq] at h; subst h; assumption)

theorem validLine_iff (line : Str) :
    validLine line = true ↔
      ∃ name gender countStr count, fieldsOf line = [name, gender, countStr] ∧
        (gender = ['F'] ∨ gender = ['M']) ∧ atoi countStr = some count ∧ 0 < count := by
  unfold validLine
  split
  · rename_i name gender countStr hf
    simp only [hf, List.cons.injEq, and_true, Bool.and_eq_true, Bool.or_eq_true, beq_iff_eq]
    constructor
    · rintro ⟨hg, hc⟩
      cases hat : atoi countStr with
      | none => simp [hat] at hc
      | some count =>
        simp only [hat, decide_eq_true_eq] at hc
        exact ⟨name, gender, countStr, count, ⟨rfl, rfl, rfl⟩, hg, hat, hc⟩
    · rintro ⟨n, g, cs, count, ⟨rfl, rfl, rfl⟩, hg, hat, hc⟩
      exact ⟨hg, by simp [hat, hc]⟩
  · rename_i hne
    constructor
    · intro h; exact absurd h (by simp)
    · rintro ⟨n, g, cs, count, hf, _⟩
      exact absurd hf (hne n g cs)

/-- The fields of a line hold no comma and no surrounding white space. -/
theorem fieldsOf_mem (line f : Str) (h : f ∈ fieldsOf line) : trimSpace f = f ∧ ',' ∉ f := by
  simp only [fieldsOf, List.mem_map] at h
  obtain ⟨p, hp, rfl⟩ := h
  refine ⟨trimSpace_trimSpace p, fun hm => not_mem_of_mem_split ',' line p hp ?_⟩
  have h1 : trimSpace p <+: p.dropWhile isSpace := List.rdropWhile_prefix _ _
  exact (List.dropWhile_sublist _).subset (h1.subset hm)

/-- What `parseSSAFile` returns when it succeeds: the scanner met no error, every
line is blank or valid, and the records are those of the lines that are not blank. -/
theorem parseSSAFile_ok (file : FileRead) (year countryID datasetID : Int)
    (records : List NameRecord) (h : parseSSAFile file year countryID datasetID = .ok records) :
    ∃ lines, file = .scanned lines false ∧
      (∀ l ∈ lines, isBlank l = false → validLine l = true) ∧
      records = (lines.filter (fun l => !isBlank l)).map (recordOf year countryID datasetID) := by
  cases file with
  | openError => simp [parseSSAFile] at h
  | scanned lines scanErr =>
    have hall : ∀ l ∈ lines, isBlank l = false → validLine l = true := by
      by_contra hne
      push_neg at hne
      obtain ⟨l, hl, hb, hv⟩ := hne
      obtain ⟨pre, bad, post, e, hpre, hb2, hv2⟩ :=
        exists_first_invalid lines ⟨l, hl, hb, by simpa using hv⟩
      rw [e, parseSSAFile, scanLoop_first_invalid year countryID datasetID pre bad post hpre
        hb2 hv2] at h
      simp at h
    rw [parseSSAFile, scanLoop_valid year countryID datasetID lines hall] at h
    cases scanErr with
    | true => simp at h
    | false =>
      simp only [List.nil_append, Bool.false_eq_true, if_false, Except.ok.injEq] at h
      exact ⟨lines, rfl, hall, h.symm⟩

/-- The parse of a file with a line that is neither blank nor valid fails at the
first such line. -/
theorem parseSSAFile_first_invalid (lines : List Str) (scanErr : Bool)
    (year countryID datasetID : Int)
    (h : ∃ l ∈ lines, isBlank l = false ∧ validLine l = false) :
    ∃ pre bad post, lines = pre ++ bad :: post ∧
      (∀ l ∈ pre, isBlank l = true ∨ validLine l = true) ∧
      isBlank bad = false ∧ validLine bad = false ∧
      parseSSAFile (.scanned lines scanErr) year countryID datasetID =
        .error (lineError (pre.length + 1) bad) := by
  obtain ⟨pre, bad, post, e, hpre, hb, hv⟩ := exists_first_invalid lines h
  refine ⟨pre, bad, post, e, ?_, hb, hv, ?_⟩
  · intro l hl
    by_cases hbl : isBlank l = true
    · exact Or.inl hbl
    · exact Or.inr (hpre l hl (by simpa using hbl))
  · rw [e, parseSSAFile, scanLoop_first_invalid year countryID datasetID pre bad post hpre hb hv]
    simp

/-- A line of three fields is not valid when its gender or its count is not. -/
theorem validLine_three (line name gender count : Str)
    (hsplit : split ',' line = [name, gender, count]) :
    isBlank line = false ∧ fieldsOf line = [trimSpace name, trimSpace gender, trimSpace count] :=
  ⟨isBlank_of_fields line (by simp [hsplit]), by simp [fieldsOf, hsplit]⟩

theorem importLoop_append {σ : Type} (w : World σ) (countryID : Int) (pre post : List Str)
    (s : σ) :
    importLoop w countryID (pre ++ post) s =
      post.foldl (importStep w countryID) (importLoop w countryID pre s) := by
  simp [importLoop, List.foldl_append]

theorem recordOf_valid (year countryID datasetID : Int) (line : Str)
    (hv : validLine line = true) :
    ∃ name gender countStr count, fieldsOf line = [name, gender, countStr] ∧
      (gender = ['F'] ∨ gender = ['M']) ∧ atoi countStr = some count ∧ 0 < count ∧
      recordOf year countryID datasetID line =
        { Year := year, Name := name, Gender := gender, Count := count,
          CountryID := countryID, DatasetID := datasetID } := by
  obtain ⟨name, gender, countStr, count, hf, hg, hat, hpos⟩ := (validLine_iff line).1 hv
  exact ⟨name, gender, countStr, count, hf, hg, hat, hpos, by simp [recordOf, hf, hat]⟩

theorem join_three_inj (a b c d : Str) : join ',' [a, b, c] = join ',' [a, b, d] ↔ c = d := by
  simp [join]

theorem isDigit_not_sign (c : Char) (h : isDigit c = true) : c ≠ '-' ∧ c ≠ '+' := by
  constructor <;> (rintro rfl; revert h; decide)

/-- A name of the form `yobYYYY.txt` yields the year its four digits spell. -/
theorem extractYearFromFilename_exact (d1 d2 d3 d4 : Char)
    (h1 : isDigit d1 = true) (h2 : isDigit d2 = true) (h3 : isDigit d3 = true)
    (h4 : isDigit d4 = true) :
    extractYearFromFilename ['y', 'o', 'b', d1, d2, d3, d4, '.', 't', 'x', 't'] =
      .ok ((digitsValue [d1, d2, d3, d4] : Nat) : Int) := by
  have hs := isDigit_not_sign d1 h1
  have hv1 := digitVal_lt d1 h1
  have hv2 := digitVal_lt d2 h2
  have hv3 := digitVal_lt d3 h3
  have hv4 := digitVal_lt d4 h4
  have hval : digitsValue [d1, d2, d3, d4] =
      ((digitVal d1 * 10 + digitVal d2) * 10 + digitVal d3) * 10 + digitVal d4 := by
    simp [digitsValue]
  have hat : atoi [d1, d2, d3, d4] = some ((digitsValue [d1, d2, d3, d4] : Nat) : Int) := by
    have e1 : ¬ (some d1 = some '-') := by simpa using hs.1
    have e2 : ¬ (some d1 = some '+') := by simpa using hs.2
    simp only [atoi, List.head?_cons, e1, e2, false_or, if_false]
    have hbody : ¬ ([d1, d2, d3, d4] = [] ∨ [d1, d2, d3, d4].all isDigit = false) := by
      simp [h1, h2, h3, h4]
    rw [if_neg hbody]
    have hr : minInt ≤ ((digitsValue [d1, d2, d3, d4] : Nat) : Int) ∧
        ((digitsValue [d1, d2, d3, d4] : Nat) : Int) ≤ maxInt := by
      rw [hval]; unfold minInt maxInt; constructor <;> omega
    rw [if_pos hr]
  simp only [extractYearFromFilename, findStringSubmatch, matchYobAtStart, h1, h2, h3, h4,
    Bool.and_self, if_true, List.length_cons, List.length_nil, List.getD_cons_succ,
    List.getD_cons_zero, hat]
  simp

/-- The names of the specification's scenarios: `yob2023.txt` yields 2023, `data.txt`
the format error. -/
theorem extractYearFromFilename_scenarios :
    extractYearFromFilename "yob2023.txt".toList = .ok 2023 ∧
      extractYearFromFilename "data.txt".toList = .error .formatMismatch := by
  decide

/-! ## The claims -/

/-- C1: a file with a line that splits into three comma-separated fields and whose
second field, trimmed, is neither `M` nor `F` does not parse: `parseSSAFile` returns
an error, and with it no record at all, wherever the line stands among the lines and
whatever the scanner reports at the end. -/
theorem parseSSAFile_rejects_gender (lines : List Str) (scanErr : Bool)
    (year countryID datasetID : Int) (line name gender count : Str) (hmem : line ∈ lines)
    (hsplit : split ',' line = [name, gender, count])
    (hM : trimSpace gender ≠ ['M']) (hF : trimSpace gender ≠ ['F']) :
    ∃ e, parseSSAFile (.scanned lines scanErr) year countryID datasetID = .error e := by
  obtain ⟨hb, hf⟩ := validLine_three line name gender count hsplit
  have hv : validLine line = false := by
    cases hval : validLine line with
    | false => rfl
    | true =>
      obtain ⟨n, g, cs, cnt, hf2, hg, _⟩ := (validLine_iff line).1 hval
      rw [hf] at hf2
      simp only [List.cons.injEq, and_true] at hf2
      obtain ⟨_, rfl, _⟩ := hf2
      rcases hg with h | h
      · exact absurd h hF
      · exact absurd h hM
  obtain ⟨pre, bad, post, _, _, _, _, h⟩ :=
    parseSSAFile_first_invalid lines scanErr year countryID datasetID ⟨line, hmem, hb, hv⟩
  exact ⟨_, h⟩

/-- The line `Bob,X,10` after a valid line fails the file. -/
theorem parseSSAFile_rejects_gender_witness :
    ∃ e, parseSSAFile (.scanned ["Mary,F,7065".toList, "Bob,X,10".toList] false) 2023 1 1 =
      .error e :=
  parseSSAFile_rejects_gender _ false 2023 1 1 "Bob,X,10".toList "Bob".toList "X".toList
    "10".toList (by decide) (by decide) (by decide) (by decide)

/-- C2: a file with a line of three comma-separated fields whose third field, trimmed,
is not a base-10 integer (one `strconv.Atoi` reads: an optional sign and decimal digits
within the range of `int`), or is such an integer that is zero or negative, does not
parse: `parseSSAFile` returns an error and no record. -/
theorem parseSSAFile_rejects_count (lines : List Str) (scanErr : Bool)
    (year countryID datasetID : Int) (line name gender count : Str) (hmem : line ∈ lines)
    (hsplit : split ',' line = [name, gender, count])
    (hcount : atoi (trimSpace count) = none ∨
      ∃ n, atoi (trimSpace count) = some n ∧ n ≤ 0) :
    ∃ e, parseSSAFile (.scanned lines scanErr) year countryID datasetID = .error e := by
  obtain ⟨hb, hf⟩ := validLine_three line name gender count hsplit
  have hv : validLine line = false := by
    cases hval : validLine line with
    | false => rfl
    | true =>
      obtain ⟨n, g, cs, cnt, hf2, _, hat, hpos⟩ := (validLine_iff line).1 hval
      rw [hf] at hf2
      simp only [List.cons.injEq, and_true] at hf2
      obtain ⟨_, _, rfl⟩ := hf2
      rcases hcount with h | ⟨m, h, hm⟩
      · rw [h] at hat; cases hat
      · rw [h] at hat
        simp only [Option.some.injEq] at hat
        omega
  obtain ⟨pre, bad, post, _, _, _, _, h⟩ :=
    parseSSAFile_first_invalid lines scanErr year countryID datasetID ⟨line, hmem, hb, hv⟩
  exact ⟨_, h⟩

/-- The counts `0`, `-3` and `12x` each fail their file. -/
theorem parseSSAFile_rejects_count_witness :
    (∃ e, parseSSAFile (.scanned ["Mary,F,7065".toList, "Ann,F,0".toList] false) 2023 1 1 =
      .error e) ∧
    (∃ e, parseSSAFile (.scanned ["Ann,F,-3".toList] false) 2023 1 1 = .error e) ∧
    (∃ e, parseSSAFile (.scanned ["Ann,F,12x".toList, "Mary,F,7065".toList] false) 2023 1 1 =
      .error e) :=
  ⟨parseSSAFile_rejects_count _ false 2023 1 1 "Ann,F,0".toList "Ann".toList "F".toList
      "0".toList (by decide) (by decide) (Or.inr ⟨0, by decide, by decide⟩),
    parseSSAFile_rejects_count _ false 2023 1 1 "Ann,F,-3".toList "Ann".toList "F".toList
      "-3".toList (by decide) (by decide) (Or.inr ⟨-3, by decide, by decide⟩),
    parseSSAFile_rejects_count _ false 2023 1 1 "Ann,F,12x".toList "Ann".toList "F".toList
      "12x".toList (by decide) (by decide) (Or.inl (by decide))⟩

/-- C3 does not hold for the name: the file of the one line `,F,5` parses, and its
record has the empty name, which the attribute constraints exclude. -/
theorem parseSSAFile_keeps_empty_name :
    parseSSAFile (.scanned [",F,5".toList] false) 2023 1 1 =
        .ok [⟨2023, [], ['F'], 5, 1, 1⟩] ∧
      ¬ NameRecord.meetsConstraints ⟨2023, [], ['F'], 5, 1, 1⟩ :=
  ⟨by decide, fun h => h.1 rfl⟩

/-- C3, amended: every record of a successful parse has the gender `M` or `F` and a
count that is strictly positive (and no larger than the largest `int`); its name is
the trimmed first field of its line, so it carries no surrounding white space and no
comma. That the name is not empty is not part of what holds. -/
theorem parseSSAFile_record_constraints (file : FileRead) (year countryID datasetID : Int)
    (records : List NameRecord)
    (h : parseSSAFile file year countryID datasetID = .ok records) :
    ∀ r ∈ records, (r.Gender = ['M'] ∨ r.Gender = ['F']) ∧ 0 < r.Count ∧ r.Count ≤ maxInt ∧
      trimSpace r.Name = r.Name ∧ ',' ∉ r.Name := by
  obtain ⟨lines, _, hall, rfl⟩ := parseSSAFile_ok file year countryID datasetID records h
  intro r hr
  simp only [List.mem_map, List.mem_filter, Bool.not_eq_true'] at hr
  obtain ⟨l, ⟨hl, hb⟩, rfl⟩ := hr
  obtain ⟨name, gender, countStr, count, hf, hg, hat, hpos, hrec⟩ :=
    recordOf_valid year countryID datasetID l (hall l hl hb)
  rw [hrec]
  have hname := fieldsOf_mem l name (by simp [hf])
  exact ⟨hg.symm, hpos, (atoi_range countStr count hat).2, hname.1, hname.2⟩

/-- The records of a file with a named and a nameless line meet the amended
constraints. -/
theorem parseSSAFile_record_constraints_witness :
    parseSSAFile (.scanned ["Mary,F,7065".toList, "".toList, " , M , 5500 ".toList] false)
        2023 1 7 =
      .ok [⟨2023, "Mary".toList, "F".toList, 7065, 1, 7⟩, ⟨2023, [], "M".toList, 5500, 1, 7⟩] ∧
    ((NameRecord.mk 2023 [] "M".toList 5500 1 7).Gender = ['M'] ∨
        (NameRecord.mk 2023 [] "M".toList 5500 1 7).Gender = ['F']) ∧
      0 < (NameRecord.mk 2023 [] "M".toList 5500 1 7).Count ∧
      (NameRecord.mk 2023 [] "M".toList 5500 1 7).Count ≤ maxInt ∧
      trimSpace (NameRecord.mk 2023 [] "M".toList 5500 1 7).Name =
        (NameRecord.mk 2023 [] "M".toList 5500 1 7).Name ∧
      ',' ∉ (NameRecord.mk 2023 [] "M".toList 5500 1 7).Name :=
  ⟨by decide,
    parseSSAFile_record_constraints
      (.scanned ["Mary,F,7065".toList, "".toList, " , M , 5500 ".toList] false) 2023 1 7
      [⟨2023, "Mary".toList, "F".toList, 7065, 1, 7⟩, ⟨2023, [], "M".toList, 5500, 1, 7⟩]
      (by decide) ⟨2023, [], "M".toList, 5500, 1, 7⟩ (by decide)⟩

/-- C4 does not hold for every accepted line: `Mary,F,007` is accepted with the count
7, and writing the record back gives `Mary,F,7`, not the line. -/
theorem serialize_leading_zero :
    parseSSAFile (.scanned ["Mary,F,007".toList] false) 2023 1 1 =
        .ok [⟨2023, "Mary".toList, "F".toList, 7, 1, 1⟩] ∧
      serialize ⟨2023, "Mary".toList, "F".toList, 7, 1, 1⟩ = "Mary,F,7".toList ∧
      trimmedLine "Mary,F,007".toList = "Mary,F,007".toList ∧
      serialize ⟨2023, "Mary".toList, "F".toList, 7, 1, 1⟩ ≠
        trimmedLine "Mary,F,007".toList := by
  decide

/-- C4, amended: for every line of a file that parses, written back as name, gender
and the decimal rendering of the count joined by commas, the name and the gender are
the line's trimmed first and second field and the count is the value of its trimmed
third field; the result is the line with the surrounding white space of each field
removed exactly when that third field has neither a plus sign nor a leading zero. -/
theorem serialize_round_trip (lines : List Str) (year countryID datasetID : Int)
    (records : List NameRecord)
    (h : parseSSAFile (.scanned lines false) year countryID datasetID = .ok records) :
    List.Forall₂
      (fun line r =>
        ∃ name gender countStr, fieldsOf line = [name, gender, countStr] ∧
          atoi countStr = some r.Count ∧
          serialize r = join ',' [name, gender, itoa r.Count] ∧
          (serialize r = trimmedLine line ↔
            countStr.head? ≠ some '+' ∧ countStr.head? ≠ some '0'))
      (lines.filter (fun l => !isBlank l)) records := by
  obtain ⟨lines2, hfile, hall, rfl⟩ :=
    parseSSAFile_ok _ year countryID datasetID records h
  simp only [FileRead.scanned.injEq, and_true] at hfile
  subst hfile
  rw [List.forall₂_map_right_iff, List.forall₂_same]
  intro l hl
  simp only [List.mem_filter, Bool.not_eq_true'] at hl
  obtain ⟨name, gender, countStr, count, hf, hg, hat, hpos, hrec⟩ :=
    recordOf_valid year countryID datasetID l (hall l hl.1 hl.2)
  refine ⟨name, gender, countStr, hf, by rw [hrec]; exact hat, by rw [hrec]; rfl, ?_⟩
  rw [hrec, trimmedLine, hf, serialize, join_three_inj]
  exact itoa_atoi_iff countStr count hat hpos

/-- A line with white space round the fields and a line with a signed count. -/
theorem serialize_round_trip_witness :
    List.Forall₂
      (fun line r =>
        ∃ name gender countStr, fieldsOf line = [name, gender, countStr] ∧
          atoi countStr = some r.Count ∧
          serialize r = join ',' [name, gender, itoa r.Count] ∧
          (serialize r = trimmedLine line ↔
            countStr.head? ≠ some '+' ∧ countStr.head? ≠ some '0'))
      ([" Mary , F , 7065 ".toList, "".toList, "John,M,+5500".toList].filter
        (fun l => !isBlank l))
      [⟨2023, "Mary".toList, "F".toList, 7065, 1, 7⟩,
        ⟨2023, "John".toList, "M".toList, 5500, 1, 7⟩] :=
  serialize_round_trip [" Mary , F , 7065 ".toList, "".toList, "John,M,+5500".toList]
    2023 1 7 _ (by decide)

/-- C5 fails on the code: `yob2023.txt.txt` is not of the form `yobYYYY.txt`, and
`extractYearFromFilename` returns the year 2023 for it instead of an error, since the
pattern is searched for anywhere in the name. -/
theorem extractYearFromFilename_unanchored :
    isYobName "yob2023.txt.txt".toList = false ∧
      extractYearFromFilename "yob2023.txt.txt".toList = .ok 2023 := by
  decide

/-- C6: when every line of a file that is not blank is valid (three comma-separated
fields, the second `M` or `F` once trimmed, the third once trimmed a strictly positive
base-10 integer that `strconv.Atoi` reads into an `int`), `parseSSAFile` succeeds and
returns one record for each line that is not blank, in the order of the file, with the
line's trimmed fields as name, gender and count and with the arguments as year,
country and dataset; blank lines give no record. -/
theorem parseSSAFile_valid (lines : List Str) (year countryID datasetID : Int)
    (h : ∀ l ∈ lines, isBlank l = false → validLine l = true) :
    parseSSAFile (.scanned lines false) year countryID datasetID =
      .ok ((lines.filter (fun l => !isBlank l)).map (recordOf year countryID datasetID)) := by
  rw [parseSSAFile, scanLoop_valid year countryID datasetID lines h]
  simp

/-- The file of the specification's scenario, with a blank line and white space round
the fields. -/
theorem parseSSAFile_valid_witness :
    parseSSAFile
        (.scanned ["Mary,F,7065".toList, "  ".toList, " John , M , 5500 ".toList] false)
        2023 1 7 =
      .ok [⟨2023, "Mary".toList, "F".toList, 7065, 1, 7⟩,
        ⟨2023, "John".toList, "M".toList, 5500, 1, 7⟩] :=
  parseSSAFile_valid ["Mary,F,7065".toList, "  ".toList, " John , M , 5500 ".toList] 2023 1 7
    (by decide)

/-- C7: over a store whose operations do not fail, running the import loop a second
time over the same files, from the store the first run left, changes neither the
registered datasets nor the persisted records, imports nothing, and reports every
file once, as skipped: its dataset exists for the year its name yields, or its name
yields no year, which the loop reports as "Skipping file". -/
theorem importLoop_twice (fs fs2 : Str → FileRead) (countryID : Int) (files : List Str)
    (s : Store) :
    (importLoop (storeWorld fs2) countryID files
        (importLoop (storeWorld fs) countryID files s).store).store =
      (importLoop (storeWorld fs) countryID files s).store ∧
    (importLoop (storeWorld fs2) countryID files
        (importLoop (storeWorld fs) countryID files s).store).totalRecords = 0 ∧
    (importLoop (storeWorld fs2) countryID files
        (importLoop (storeWorld fs) countryID files s).store).report.map Prod.fst = files ∧
    ∀ e ∈ (importLoop (storeWorld fs2) countryID files
        (importLoop (storeWorld fs) countryID files s).store).report,
      e.2.state = .Skipped ∧ skippedAgain e := by
  have hreg := (foldl_importStep_registered fs countryID files
    { store := s, totalRecords := 0, report := [] }).2
  obtain ⟨entries, hm, hs, hfold⟩ := foldl_importStep_skip fs2 countryID files
    { store := (importLoop (storeWorld fs) countryID files s).store, totalRecords := 0,
      report := [] } hreg
  have e : importLoop (storeWorld fs2) countryID files
      (importLoop (storeWorld fs) countryID files s).store =
      { store := (importLoop (storeWorld fs) countryID files s).store, totalRecords := 0,
        report := entries } := by
    rw [importLoop, hfold]; simp
  rw [e]
  exact ⟨rfl, rfl, hm, fun x hx => ⟨skippedAgain_state x (hs x hx), hs x hx⟩⟩

/-- The scenario of the specification run twice: two records after the first run,
the same store and two skipped files after the second. -/
theorem importLoop_twice_witness :
    (importLoop (storeWorld exampleFiles) 1 examplePaths
        (importLoop (storeWorld exampleFiles) 1 examplePaths ⟨[], []⟩).store).store =
      (importLoop (storeWorld exampleFiles) 1 examplePaths ⟨[], []⟩).store ∧
    (importLoop (storeWorld exampleFiles) 1 examplePaths ⟨[], []⟩).store.names.length = 2 ∧
    (importLoop (storeWorld exampleFiles) 1 examplePaths
        (importLoop (storeWorld exampleFiles) 1 examplePaths ⟨[], []⟩).store).report =
      [("../names-example/yob2023.txt".toList, .skippedExists 2023),
        ("../names-example/yobabcd.txt".toList, .skippedFilename .formatMismatch)] :=
  ⟨(importLoop_twice exampleFiles exampleFiles 1 examplePaths ⟨[], []⟩).1, by decide,
    by decide⟩

/-- C8: `batchInsertNames` returns no error exactly when the rows written are as
many as the records of the batch; for the empty batch it returns no error and leaves
the connection's state as it was, whatever the connection; and for a batch that is not
empty, a copy that reports no error but another number of rows makes it return the
row-count error, which differs from the error it returns for any failing copy. -/
theorem batchInsertNames_spec {σ : Type} (w : World σ) (s : σ) (records : List NameRecord) :
    ((batchInsertNames w s records).1 = none ↔
        rowsWritten w s records = some (records.length : Int)) ∧
      (∀ w2 : World σ, batchInsertNames w2 s [] = (none, s) ∧ rowsWritten w2 s [] = some 0) ∧
      (records ≠ [] → ∀ (copied : Int) (s1 : σ), w.copyFrom s records = (.ok copied, s1) →
        copied ≠ (records.length : Int) →
        batchInsertNames w s records = (some (rowCountMessage records.length copied), s1) ∧
          ∀ (w2 : World σ) (s2 s3 : σ) (err : Str),
            w2.copyFrom s2 records = (.error err, s3) →
            (batchInsertNames w2 s2 records).1 = some (copyFailedMessage err) ∧
              (batchInsertNames w2 s2 records).1 ≠ (batchInsertNames w s records).1) := by
  refine ⟨?_, ?_, ?_⟩
  · by_cases hne : records = []
    · subst hne; simp [batchInsertNames, rowsWritten]
    · rcases hc : w.copyFrom s records with ⟨res, s1⟩
      cases res with
      | error err =>
        rw [batchInsertNames_copy_error w s s1 records hne err hc]
        simp [rowsWritten, hne, hc]
      | ok copied =>
        rw [batchInsertNames_copy_ok w s s1 records hne copied hc]
        simp only [rowsWritten, hne, hc, if_false, Option.some.injEq]
        by_cases he : (records.length : Int) = copied
        · simp [he]
        · simp [he, Ne.symm he]
  · intro w2
    simp [batchInsertNames, rowsWritten]
  · intro hne copied s1 hc hcne
    have e1 := batchInsertNames_copy_ok w s s1 records hne copied hc
    rw [if_pos (Ne.symm hcne)] at e1
    refine ⟨e1, ?_⟩
    intro w2 s2 s3 err hc2
    have e2 := batchInsertNames_copy_error w2 s2 s3 records hne err hc2
    rw [e1, e2]
    refine ⟨rfl, ?_⟩
    simp only [ne_eq, Option.some.injEq]
    exact fun h => rowCountMessage_ne _ _ _ h.symm

/-- A copy that drops a row gives the row-count error, a failing copy the copy
error. -/
theorem batchInsertNames_spec_witness :
    ((batchInsertNames droppingWorld () [⟨2023, "Mary".toList, "F".toList, 7065, 1, 1⟩]).1 =
        none ↔
      rowsWritten droppingWorld () [⟨2023, "Mary".toList, "F".toList, 7065, 1, 1⟩] =
        some 1) ∧
    batchInsertNames droppingWorld () [⟨2023, "Mary".toList, "F".toList, 7065, 1, 1⟩] =
      (some "expected to copy 1 rows, but copied 0".toList, ()) ∧
    batchInsertNames failingWorld () [⟨2023, "Mary".toList, "F".toList, 7065, 1, 1⟩] =
      (some "copy failed: connection lost".toList, ()) :=
  ⟨(batchInsertNames_spec droppingWorld ()
      [⟨2023, "Mary".toList, "F".toList, 7065, 1, 1⟩]).1, by decide, by decide⟩

/-- C9: a file with a line that is neither blank nor valid does not parse:
`parseSSAFile` returns the error of the first such line, whose line number is the
position of that line in the file, counted from 1 over all lines, blank ones included;
when that line does not split into three fields the error is the format error, with
the number of fields found. -/
theorem parseSSAFile_fails_at_first_invalid (lines : List Str) (scanErr : Bool)
    (year countryID datasetID : Int)
    (h : ∃ l ∈ lines, isBlank l = false ∧ validLine l = false) :
    ∃ pre bad post e, lines = pre ++ bad :: post ∧
      (∀ l ∈ pre, isBlank l = true ∨ validLine l = true) ∧
      isBlank bad = false ∧ validLine bad = false ∧
      parseSSAFile (.scanned lines scanErr) year countryID datasetID = .error e ∧
      e = lineError (pre.length + 1) bad ∧
      e.lineNum? = some (pre.length + 1) ∧
      ((fieldsOf bad).length ≠ 3 →
        e = .invalidFormat (pre.length + 1) (fieldsOf bad).length) := by
  obtain ⟨pre, bad, post, e, hpre, hb, hv, hp⟩ :=
    parseSSAFile_first_invalid lines scanErr year countryID datasetID h
  refine ⟨pre, bad, post, _, e, hpre, hb, hv, hp, rfl, lineError_lineNum _ _, ?_⟩
  intro hlen
  unfold lineError
  split
  · rename_i hf; rw [hf] at hlen; simp at hlen
  · rfl

/-- A line of two fields in third position, after a valid and a blank line and before
a line with another defect. -/
theorem parseSSAFile_fails_at_first_invalid_witness :
    (∃ pre bad post e,
      ["Mary,F,7065".toList, "".toList, "Bob,10".toList, "Al,X,1".toList] = pre ++ bad :: post ∧
      (∀ l ∈ pre, isBlank l = true ∨ validLine l = true) ∧
      isBlank bad = false ∧ validLine bad = false ∧
      parseSSAFile
        (.scanned ["Mary,F,7065".toList, "".toList, "Bob,10".toList, "Al,X,1".toList] false)
        2023 1 1 = .error e ∧
      e = lineError (pre.length + 1) bad ∧
      e.lineNum? = some (pre.length + 1) ∧
      ((fieldsOf bad).length ≠ 3 →
        e = .invalidFormat (pre.length + 1) (fieldsOf bad).length)) ∧
    parseSSAFile
      (.scanned ["Mary,F,7065".toList, "".toList, "Bob,10".toList, "Al,X,1".toList] false)
      2023 1 1 = .error (.invalidFormat 3 2) :=
  ⟨parseSSAFile_fails_at_first_invalid _ false 2023 1 1
    ⟨"Bob,10".toList, by decide, by decide, by decide⟩, by decide⟩

/-- C10: whatever the connection and the files answer, the import loop reports every
file of the list once, in order, each in one of the three states; the total it ends
with is the sum of the parsed record counts of the files reported as imported; and
the report of a file is the one the loop body gives from the state the files before it
left, an imported file being one whose parse gave as many records as reported. -/
theorem importLoop_total {σ : Type} (w : World σ) (countryID : Int) (files : List Str)
    (s : σ) :
    (importLoop w countryID files s).report.map Prod.fst = files ∧
    (∀ e ∈ (importLoop w countryID files s).report,
      e.2.state = .Skipped ∨ e.2.state = .Imported ∨ e.2.state = .Failed) ∧
    (importLoop w countryID files s).totalRecords =
      importedTotal (importLoop w countryID files s).report ∧
    (∀ pre f post, files = pre ++ f :: post →
      ∃ o : Outcome,
        (importLoop w countryID files s).report.get? pre.length = some (f, o) ∧
        (importStep w countryID (importLoop w countryID pre s) f).report =
          (importLoop w countryID pre s).report ++ [(f, o)] ∧
        (∀ n year, o = .imported n year →
          ∃ (s2 : σ) (datasetID : Int) (records : List NameRecord),
            parseSSAFile (w.readFile s2 f) year countryID datasetID = .ok records ∧
              records.length = n)) := by
  obtain ⟨entries, hrep, hmap, htot⟩ := importLoop_foldl w countryID files
    { store := s, totalRecords := 0, report := [] }
  simp only [List.nil_append, zero_add] at hrep htot
  refine ⟨?_, ?_, ?_, ?_⟩
  · rw [importLoop, hrep, hmap]
  · intro e _
    cases e.2.state <;> simp
  · rw [importLoop, htot, hrep]
  · intro pre f post hfiles
    obtain ⟨o, ho, _⟩ := importStep_report w countryID (importLoop w countryID pre s) f
    obtain ⟨pentries, hprep, hpmap, _⟩ := importLoop_foldl w countryID pre
      { store := s, totalRecords := 0, report := [] }
    obtain ⟨rest, hrest, _, _⟩ := importLoop_foldl w countryID post
      (importStep w countryID (importLoop w countryID pre s) f)
    simp only [List.nil_append] at hprep
    have hlen : (importLoop w countryID pre s).report.length = pre.length := by
      rw [importLoop, hprep, ← hpmap, List.length_map]
    have hall : (importLoop w countryID files s).report =
        (importLoop w countryID pre s).report ++ (f, o) :: rest := by
      rw [hfiles, importLoop_append, List.foldl_cons, hrest, ho]
      simp
    refine ⟨o, ?_, ho, ?_⟩
    · rw [hall, ← hlen, List.get?_eq_getElem?, List.getElem?_append_right (le_refl _)]
      simp
    · intro n year hn
      subst hn
      obtain ⟨_, _, s2, _, datasetID, records, _, _, hparse, _, hcount, _⟩ :=
        importStep_imported w countryID (importLoop w countryID pre s) f n year ho
      exact ⟨s2, datasetID, records, hparse, hcount⟩

/-- The scenario of the specification: one file imported with two records, one
skipped, and a total of two. -/
theorem importLoop_total_witness :
    (importLoop (storeWorld exampleFiles) 1 examplePaths ⟨[], []⟩).totalRecords =
      importedTotal (importLoop (storeWorld exampleFiles) 1 examplePaths ⟨[], []⟩).report ∧
    (importLoop (storeWorld exampleFiles) 1 examplePaths ⟨[], []⟩).totalRecords = 2 ∧
    (importLoop (storeWorld exampleFiles) 1 examplePaths ⟨[], []⟩).report =
      [("../names-example/yob2023.txt".toList, .imported 2 2023),
        ("../names-example/yobabcd.txt".toList, .skippedFilename .formatMismatch)] :=
  ⟨(importLoop_total (storeWorld exampleFiles) 1 examplePaths ⟨[], []⟩).2.2.1, by decide,
    by decide⟩

end AffirmName
